import Mathlib

/-!
Shallow embedding of the burn-mapping change-detection pipeline
(`notebooks/handover/burnmappingtoolbox.py` and
`notebooks/handover/BurnCube.py`) over exact rationals.

Modelling conventions:
* numpy floating-point values are modelled as `Option ℚ`: `none` stands for
  NaN ("no observation"), `some q` for an ordinary finite value.  numpy
  comparisons involving NaN are false, which the `o*` comparison helpers
  reproduce.
* timestamps (`datetime64[ns]`) are modelled as rational days since the
  epoch; the source converts time deltas to days via
  `/np.timedelta64(1,'s')/(60*60*24)`, so subtraction of the day values is
  the faithful translation.
* integer-valued numpy arrays (`int16` reflectances, label grids) carry no
  NaN and are modelled as plain `ℚ` / `ℕ` lists.
-/

namespace BurnMapping

/-- numpy `a > q` where `a` may be NaN: NaN compares false. -/
def oGT (a : Option ℚ) (q : ℚ) : Bool :=
  match a with
  | some v => decide (q < v)
  | none => false

/-- numpy `a > b` where either side may be NaN: NaN compares false. -/
def oGTo (a b : Option ℚ) : Bool :=
  match a, b with
  | some v, some w => decide (w < v)
  | _, _ => false

/-- numpy `a < q` where `a` may be NaN: NaN compares false. -/
def oLT (a : Option ℚ) (q : ℚ) : Bool :=
  match a with
  | some v => decide (v < q)
  | none => false

/-- numpy product with NaN propagation. -/
def omul (a b : Option ℚ) : Option ℚ :=
  match a, b with
  | some v, some w => some (v * w)
  | _, _ => none

/-- numpy quotient with NaN propagation; a zero divisor is also mapped to
`none` (the claims settled here never divide by zero on the relevant
inputs, so the float `inf` branch is not exercised). -/
def odiv (a b : Option ℚ) : Option ℚ :=
  match a, b with
  | some v, some w => if w = 0 then none else some (v / w)
  | _, _ => none

/-! ## `severity` (burnmappingtoolbox.py, lines 126-178) -/

/-- `notnanind = np.where(~np.isnan(CDist))[0]`. -/
def notnanind (cd : List (Option ℚ)) : List ℕ :=
  (List.range cd.length).filter (fun i => (cd.getD i none).isSome)

/-- Fancy indexing `xs[idx]` on a float array, keeping the NaN structure. -/
def selO (xs : List (Option ℚ)) (idx : List ℕ) : List (Option ℚ) :=
  idx.map (fun i => xs.getD i none)

/-- Fancy indexing `xs[idx]` on an array whose selected entries are known
to be non-NaN (the filtered cosine distances): unwrap to plain rationals. -/
def selQ (xs : List (Option ℚ)) (idx : List ℕ) : List ℚ :=
  idx.map (fun i => (xs.getD i none).getD 0)

/-- Fancy indexing `xs[idx]` on the timestamp array. -/
def selT (xs : List ℚ) (idx : List ℕ) : List ℚ :=
  idx.map (fun i => xs.getD i 0)

/-- The three `np.where` outlier selections of `severity` (Methods 1-3),
operating on the NaN-filtered per-pixel series.  An unrecognised method
leaves `outlierind` undefined in the source (`NameError` on use), modelled
as `none`. -/
def outlierIndices (cosd : List ℚ) (θc : ℚ) (nbrF nbrDistF signF : List (Option ℚ))
    (θn : ℚ) (Method : ℕ) : Option (List ℕ) :=
  if Method = 1 then
    some ((List.range cosd.length).filter (fun ii => decide (θc < cosd.getD ii 0)))
  else if Method = 2 then
    some ((List.range cosd.length).filter (fun ii =>
      decide (θc < cosd.getD ii 0) && oLT (nbrF.getD ii none) 0))
  else if Method = 3 then
    some ((List.range cosd.length).filter (fun ii =>
      decide (θc < cosd.getD ii 0) && oGT (nbrDistF.getD ii none) θn
        && (signF.getD ii none == some 1)))
  else none

/-- The linkage test of the `severity` loop body:
`outlierind[ii]+1 < len(time)` and
`len(np.where(time[outlierind[ii]+1]==outlierdates)[0]) > 0`
(the next retained observation is itself an outlier date). -/
def linkedB (time : List ℚ) (oind : List ℕ) (ii : ℕ) : Bool :=
  let oi := oind.getD ii 0
  decide (oi + 1 < time.length) &&
    decide (time.getD (oi + 1) 0 ∈ oind.map (fun j => time.getD j 0))

/-- `t1_t0 = (time[outlierind[ii]+1] - time[outlierind[ii]])
/np.timedelta64(1,'s')/(60*60*24)`: the day span from the `ii`-th outlier
to the next retained observation (timestamps are already in days here). -/
def pairDt (time : List ℚ) (oind : List ℕ) (ii : ℕ) : ℚ :=
  time.getD (oind.getD ii 0 + 1) 0 - time.getD (oind.getD ii 0) 0

/-- `0.5*y1_y0*t1_t0` with
`y1_y0 = (cosdist[outlierind[ii]+1] + cosdist[outlierind[ii]]) - 2*CDistoutlier`:
the trapezoidal area contribution of one linked consecutive outlier pair. -/
def pairArea (time cosd : List ℚ) (θc : ℚ) (oind : List ℕ) (ii : ℕ) : ℚ :=
  1/2 * ((cosd.getD (oind.getD ii 0 + 1) 0 + cosd.getD (oind.getD ii 0) 0) - 2 * θc) *
    pairDt time oind ii

/-- The outlier positions whose linkage test passes — the loop's final
`tt` list. -/
def linkedIdx (time : List ℚ) (oind : List ℕ) : List ℕ :=
  (List.range oind.length).filter (fun ii => linkedB time oind ii)

/-- The accumulation loop `for ii in range(0,Nout)` of `severity`:
returns `(AreaAboveD0, duration, tt)`. -/
def sevLoop (time cosd : List ℚ) (θc : ℚ) (oind : List ℕ) : ℚ × ℚ × List ℕ :=
  (List.range oind.length).foldl
    (fun acc ii =>
      if linkedB time oind ii then
        (acc.1 + pairArea time cosd θc oind ii,
         acc.2.1 + pairDt time oind ii,
         acc.2.2 ++ [ii])
      else acc)
    (0, 0, ([] : List ℕ))

/-- Source default `Method=3`. -/
def severityDefaultMethod : ℕ := 3

/-- `severity(CDist, CDistoutlier, Time, NBR, NBRDist, NBRoutlier, Sign, Method)`:
returns `(sevindex, startdate, duration)`; `none` models the `NameError`
raised on an unrecognised method. -/
def severity (CDist : List (Option ℚ)) (θc : ℚ) (Time : List ℚ)
    (NBR NBRDist : List (Option ℚ)) (θn : ℚ) (Sign : List (Option ℚ))
    (Method : ℕ) : Option (ℚ × ℚ × ℚ) :=
  let nn := notnanind CDist
  let cosd := selQ CDist nn
  match outlierIndices cosd θc (selO NBR nn) (selO NBRDist nn) (selO Sign nn) θn Method with
  | none => none
  | some oind =>
    let time := selT Time nn
    if 2 ≤ oind.length then
      let r := sevLoop time cosd θc oind
      if r.2.2 ≠ [] then
        some (r.1, time.getD (oind.getD (r.2.2.getD 0 0) 0) 0, r.2.1)
      else
        some (0, 0, r.2.1)
    else
      some (0, 0, 0)

/-- `severitymapping` post-processing (BurnCube.py line 539):
`startdate[startdate==0] = np.nan`, i.e. a zero start date is reported as
undefined. -/
def startdateToOpt (q : ℚ) : Option ℚ :=
  if q = 0 then none else some q

end BurnMapping

namespace BurnMapping

/-! ## Supporting lemmas for the severity theorems -/

theorem notnanind_pairwise (cd : List (Option ℚ)) :
    (notnanind cd).Pairwise (· < ·) :=
  (List.pairwise_lt_range cd.length).filter _

theorem notnanind_mem_lt (cd : List (Option ℚ)) {i : ℕ} (h : i ∈ notnanind cd) :
    i < cd.length := by
  have := (List.mem_filter.mp h).1
  exact List.mem_range.mp this

theorem getD_lt_getD_of_pairwise (l : List ℚ) (h : l.Pairwise (· < ·))
    {a b : ℕ} (ha : a < l.length) (hb : b < l.length) (hab : a < b) :
    l.getD a 0 < l.getD b 0 := by
  rw [List.getD_eq_getElem l 0 ha, List.getD_eq_getElem l 0 hb]
  exact List.pairwise_iff_get.mp h ⟨a, ha⟩ ⟨b, hb⟩ hab

theorem selT_length (xs : List ℚ) (idx : List ℕ) : (selT xs idx).length = idx.length :=
  List.length_map _ _

theorem selQ_length (xs : List (Option ℚ)) (idx : List ℕ) :
    (selQ xs idx).length = idx.length :=
  List.length_map _ _

/-- The retained-time series `time = Time[notnanind]` is strictly
increasing whenever the full timestamp axis is. -/
theorem selT_pairwise (Time : List ℚ) (cd : List (Option ℚ))
    (hlen : Time.length = cd.length) (hmono : Time.Pairwise (· < ·)) :
    (selT Time (notnanind cd)).Pairwise (· < ·) := by
  unfold selT
  rw [List.pairwise_map]
  refine (notnanind_pairwise cd).imp_of_mem ?_
  intro a b ha hb hab
  have ha' : a < Time.length := hlen ▸ notnanind_mem_lt cd ha
  have hb' : b < Time.length := hlen ▸ notnanind_mem_lt cd hb
  exact getD_lt_getD_of_pairwise Time hmono ha' hb' hab

theorem foldl_fixed {α β : Type} (f : β → α → β) (l : List α) (b : β)
    (h : ∀ a ∈ l, ∀ acc, f acc a = acc) : List.foldl f b l = b := by
  induction l generalizing b with
  | nil => rfl
  | cons x xs ih =>
    rw [List.foldl_cons, h x (List.mem_cons_self x xs) b]
    exact ih b (fun a ha acc => h a (List.mem_cons_of_mem x ha) acc)

/-- The accumulation loop is the identity when no outlier is linked. -/
theorem sevLoop_all_unlinked (time cosd : List ℚ) (θc : ℚ) (oind : List ℕ)
    (h : ∀ ii < oind.length, linkedB time oind ii = false) :
    sevLoop time cosd θc oind = (0, 0, []) := by
  unfold sevLoop
  refine foldl_fixed _ _ _ ?_
  intro a ha acc
  simp [h a (List.mem_range.mp ha)]

end BurnMapping

namespace BurnMapping

theorem outlierIndices_three (cosd : List ℚ) (θc : ℚ)
    (nbrF nbrDistF signF : List (Option ℚ)) (θn : ℚ) :
    outlierIndices cosd θc nbrF nbrDistF signF θn 3 =
      some ((List.range cosd.length).filter (fun ii =>
        decide (θc < cosd.getD ii 0) && oGT (nbrDistF.getD ii none) θn
          && (signF.getD ii none == some 1))) := rfl

/-- C2: a pixel with fewer than two linked consecutive outlier time steps
under the chosen policy (in particular a pixel with at most one outlier
time step) gets severity index 0, duration 0, and a start date of 0, which
the `severitymapping` post-processing reports as undefined (NaN). -/
theorem severity_no_linked_pair_zero (CDist : List (Option ℚ)) (θc : ℚ)
    (Time : List ℚ) (NBR NBRDist : List (Option ℚ)) (θn : ℚ)
    (Sign : List (Option ℚ)) (Method : ℕ) (oind : List ℕ)
    (hout : outlierIndices (selQ CDist (notnanind CDist)) θc
      (selO NBR (notnanind CDist)) (selO NBRDist (notnanind CDist))
      (selO Sign (notnanind CDist)) θn Method = some oind)
    (hfew : oind.length ≤ 1 ∨
      ∀ ii < oind.length, linkedB (selT Time (notnanind CDist)) oind ii = false) :
    severity CDist θc Time NBR NBRDist θn Sign Method = some (0, 0, 0) ∧
      startdateToOpt 0 = none := by
  constructor
  · simp only [severity, hout]
    rcases hfew with hle | hnl
    · rw [if_neg (by omega)]
    · by_cases h2 : 2 ≤ oind.length
      · rw [if_pos h2, sevLoop_all_unlinked _ _ _ _ hnl]
        simp
      · rw [if_neg h2]
  · simp [startdateToOpt]

theorem outlierIndices_three_mem_lt (cosd : List ℚ) (θc : ℚ)
    (nbrF nbrDistF signF : List (Option ℚ)) (θn : ℚ) (oind : List ℕ)
    (hout : outlierIndices cosd θc nbrF nbrDistF signF θn 3 = some oind) :
    ∀ x ∈ oind, x < cosd.length := by
  rw [outlierIndices_three] at hout
  have h := Option.some.inj hout
  intro x hx
  rw [← h] at hx
  exact List.mem_range.mp (List.mem_filter.mp hx).1

theorem foldl_filter_sums (p : ℕ → Bool) (c d : ℕ → ℚ) :
    ∀ (l : List ℕ) (acc : ℚ × ℚ × List ℕ),
      List.foldl (fun acc ii =>
          if p ii then (acc.1 + c ii, acc.2.1 + d ii, acc.2.2 ++ [ii]) else acc) acc l
        = (acc.1 + ((l.filter p).map c).sum,
           acc.2.1 + ((l.filter p).map d).sum,
           acc.2.2 ++ l.filter p) := by
  intro l
  induction l with
  | nil => intro acc; simp
  | cons x xs ih =>
    intro acc
    rw [List.foldl_cons]
    by_cases hx : p x
    · rw [if_pos hx, ih, List.filter_cons_of_pos hx]
      simp [add_assoc]
    · rw [if_neg hx, ih, List.filter_cons_of_neg hx]

/-- The accumulation loop in closed form: `AreaAboveD0` and `duration`
are the sums of the per-pair trapezoid areas and day spans over exactly
the linked outlier positions, and `tt` is the list of those positions. -/
theorem sevLoop_eq_sums (time cosd : List ℚ) (θc : ℚ) (oind : List ℕ) :
    sevLoop time cosd θc oind =
      (((linkedIdx time oind).map (pairArea time cosd θc oind)).sum,
       ((linkedIdx time oind).map (pairDt time oind)).sum,
       linkedIdx time oind) := by
  unfold sevLoop linkedIdx
  have h := foldl_filter_sums (fun ii => linkedB time oind ii)
    (pairArea time cosd θc oind) (pairDt time oind) (List.range oind.length) (0, 0, [])
  simpa using h

/-- C1: `severity` adds, for each linked consecutive outlier pair — an
outlier whose next retained observation is itself the next outlier —
exactly `0.5*((cos(t1)+cos(t0)) - 2*threshold)*Δdays` to the severity
index and `Δdays` to the total duration: on an arbitrary Method-3 outlier
set the returned severity index and duration are the sums of those
per-pair contributions over all linked pairs, and the start date is the
timestamp of the first outlier of the first linked pair (0, reported as
undefined, when there is none).  In particular, for a pixel whose outlier
set is exactly two adjacent retained observations `j` and `j+1`, the
severity index is that single trapezoid, the start date is the first of
the two timestamps, and the duration equals the strictly positive elapsed
days between them. -/
theorem severity_linked_pairs_accumulate (CDist : List (Option ℚ)) (θc : ℚ)
    (Time : List ℚ) (NBR NBRDist : List (Option ℚ)) (θn : ℚ)
    (Sign : List (Option ℚ)) (oind : List ℕ)
    (hlen : Time.length = CDist.length)
    (hmono : Time.Pairwise (· < ·))
    (hout : outlierIndices (selQ CDist (notnanind CDist)) θc
      (selO NBR (notnanind CDist)) (selO NBRDist (notnanind CDist))
      (selO Sign (notnanind CDist)) θn 3 = some oind) :
    severity CDist θc Time NBR NBRDist θn Sign 3 =
      some (((linkedIdx (selT Time (notnanind CDist)) oind).map
              (pairArea (selT Time (notnanind CDist))
                (selQ CDist (notnanind CDist)) θc oind)).sum,
            (if linkedIdx (selT Time (notnanind CDist)) oind = [] then 0
             else (selT Time (notnanind CDist)).getD
               (oind.getD ((linkedIdx (selT Time (notnanind CDist)) oind).getD 0 0) 0) 0),
            ((linkedIdx (selT Time (notnanind CDist)) oind).map
              (pairDt (selT Time (notnanind CDist)) oind)).sum) ∧
    (∀ j, oind = [j, j + 1] →
      severity CDist θc Time NBR NBRDist θn Sign 3 =
        some (pairArea (selT Time (notnanind CDist))
                (selQ CDist (notnanind CDist)) θc oind 0,
              (selT Time (notnanind CDist)).getD j 0,
              pairDt (selT Time (notnanind CDist)) oind 0) ∧
      0 < pairDt (selT Time (notnanind CDist)) oind 0) := by
  set nn := notnanind CDist with hnn
  set cosd := selQ CDist nn with hcosd
  set time := selT Time nn with htime
  have hclen : cosd.length = nn.length := selQ_length _ _
  have htlen : time.length = nn.length := selT_length _ _
  have htmono : time.Pairwise (· < ·) := selT_pairwise Time CDist hlen hmono
  have hmemlt : ∀ x ∈ oind, x < time.length := by
    intro x hx
    have hx2 := outlierIndices_three_mem_lt cosd θc (selO NBR nn) (selO NBRDist nn)
      (selO Sign nn) θn oind hout x hx
    omega
  have hgen : severity CDist θc Time NBR NBRDist θn Sign 3 =
      some (((linkedIdx time oind).map (pairArea time cosd θc oind)).sum,
            (if linkedIdx time oind = [] then 0
             else time.getD (oind.getD ((linkedIdx time oind).getD 0 0) 0) 0),
            ((linkedIdx time oind).map (pairDt time oind)).sum) := by
    simp only [severity, hout]
    by_cases h2 : 2 ≤ oind.length
    · rw [if_pos h2, sevLoop_eq_sums]
      by_cases hne : linkedIdx time oind = []
      · rw [hne]
        simp
      · simp [hne]
    · rw [if_neg h2]
      have hempty : linkedIdx time oind = [] := by
        unfold linkedIdx
        apply List.filter_eq_nil_iff.mpr
        intro ii hii
        rw [List.mem_range] at hii
        have hlen1 : oind.length = 1 := by omega
        obtain ⟨a, ha⟩ := List.length_eq_one.mp hlen1
        subst ha
        have hii0 : ii = 0 := by omega
        subst hii0
        simp only [linkedB, List.getD_cons_zero, List.map_cons, List.map_nil,
          Bool.and_eq_true, decide_eq_true_eq, not_and]
        intro h1 hmem
        simp only [List.mem_cons, List.not_mem_nil, or_false] at hmem
        have halt : a < time.length := hmemlt a (by simp)
        have hlt := getD_lt_getD_of_pairwise time htmono halt h1 (by omega)
        rw [hmem] at hlt
        exact lt_irrefl _ hlt
      rw [hempty]
      simp
  refine ⟨hgen, ?_⟩
  intro j hj
  subst hj
  have hj1t : j + 1 < time.length := hmemlt (j + 1) (by simp)
  have hjt : j < time.length := by omega
  have hlt : time.getD j 0 < time.getD (j + 1) 0 :=
    getD_lt_getD_of_pairwise time htmono hjt hj1t (by omega)
  have hlinked0 : linkedB time [j, j + 1] 0 = true := by
    simp only [linkedB, List.getD_cons_zero, List.map_cons, List.map_nil,
      Bool.and_eq_true, decide_eq_true_eq]
    exact ⟨hj1t, by simp⟩
  have hlinked1 : linkedB time [j, j + 1] 1 = false := by
    simp only [linkedB, List.getD_cons_succ, List.getD_cons_zero, List.map_cons,
      List.map_nil, Bool.and_eq_false_iff, decide_eq_false_iff_not]
    by_cases h2 : j + 1 + 1 < time.length
    · right
      have hlt2 : time.getD (j + 1) 0 < time.getD (j + 1 + 1) 0 :=
        getD_lt_getD_of_pairwise time htmono hj1t h2 (by omega)
      intro hmem
      simp only [List.mem_cons, List.not_mem_nil, or_false] at hmem
      rcases hmem with he | he
      · rw [he] at hlt2; linarith
      · rw [he] at hlt2; linarith
    · left; exact h2
  have hlidx : linkedIdx time [j, j + 1] = [0] := by
    unfold linkedIdx
    rw [show List.range ([j, j + 1] : List ℕ).length = [0, 1] from rfl]
    simp [hlinked0, hlinked1]
  have hdt : 0 < pairDt time [j, j + 1] 0 := by
    unfold pairDt
    simp only [List.getD_cons_zero]
    linarith
  refine ⟨?_, hdt⟩
  rw [hgen, hlidx]
  simp

end BurnMapping

namespace BurnMapping

/-- Witness for C2: a pixel with exactly one outlier time step. -/
theorem severity_no_linked_pair_zero_witness :
    severity [some 3, some 0] 1 [0, 1] [some (-1), some 0]
      [some 3, some 0] 1 [some 1, some 0] 3 = some (0, 0, 0) ∧
    startdateToOpt 0 = none :=
  severity_no_linked_pair_zero [some 3, some 0] 1 [0, 1] [some (-1), some 0]
    [some 3, some 0] 1 [some 1, some 0] 3 [0] (by decide) (Or.inl (by decide))

/-- Witness for C1: two adjacent outliers one day apart. -/
theorem severity_linked_pairs_accumulate_witness :
    severity [some 3, some 3, some 0] 1 [1, 2, 11] [some (-1), some (-1), some 0]
      [some 3, some 3, some 0] 1 [some 1, some 1, some 0] 3 = some (2, 1, 1) ∧
    (0 : ℚ) < 1 := by
  have h := severity_linked_pairs_accumulate [some 3, some 3, some 0] 1 [1, 2, 11]
    [some (-1), some (-1), some 0] [some 3, some 3, some 0] 1
    [some 1, some 1, some 0] [0, 1] (by decide) (by decide) (by decide)
  have h2 := h.2 0 rfl
  refine ⟨?_, by norm_num⟩
  rw [h2.1]
  norm_num [pairArea, pairDt, selQ, selT, notnanind, List.filter]

end BurnMapping

namespace BurnMapping

/-! ## `nbr_eucdistance` (burnmappingtoolbox.py, lines 108-124) -/

/-- `nbr_eucdistance(ref, obs)`: `NBRdist` starts NaN-filled and `Sign`
starts as `np.zeros`; only indices with a non-NaN observation are written.
`np.sqrt(EucDist**2)` is the exact absolute value.  A NaN reference makes
`EucDist` NaN, so `NBRdist[index]` is NaN and `EucDist < 0` is false,
leaving `Sign` at 0.  Returns `(NBRdist, Sign)`. -/
def nbr_eucdistance (ref : Option ℚ) (obs : List (Option ℚ)) :
    List (Option ℚ) × List (Option ℚ) :=
  (obs.map (fun o =>
      match o, ref with
      | some v, some r => some |v - r|
      | some _, none => none
      | none, _ => none),
   obs.map (fun o =>
      match o, ref with
      | some v, some r => if v - r < 0 then some 1 else some 0
      | _, _ => some 0))

/-- Counterexample to C5: at a time step whose NBR is undefined (NaN), the
change-direction output is the defined value 0 — not NaN as the claim
states — even though the NBR distance there is indeed undefined. -/
theorem direction_nan_counterexample :
    ((nbr_eucdistance (some 0) [none]).2.getD 0 none = some 0) ∧
    ((nbr_eucdistance (some 0) [none]).1.getD 0 none = none) := by
  constructor <;> rfl

/-- C5 (amended): the change direction is 1 exactly when both the observed
and the baseline NBR are defined and the observed NBR is strictly below
the baseline, and 0 in every other case — including when the observed NBR
is undefined (the zeros initialisation is simply never overwritten). -/
theorem direction_tristate_rule (ref : Option ℚ) (obs : List (Option ℚ))
    (i : ℕ) (hi : i < obs.length) :
    (nbr_eucdistance ref obs).2.getD i none =
      (match obs.getD i none, ref with
       | some v, some r => if v < r then some 1 else some 0
       | _, _ => some (0 : ℚ)) := by
  unfold nbr_eucdistance
  have hi' : i < (obs.map (fun o =>
      match o, ref with
      | some v, some r => if v - r < 0 then some (1:ℚ) else some 0
      | _, _ => some 0)).length := by
    rw [List.length_map]; exact hi
  rw [List.getD_eq_getElem _ _ hi', List.getElem_map,
    List.getD_eq_getElem _ _ hi]
  rcases obs[i] with _ | v <;> rcases ref with _ | r
  · rfl
  · rfl
  · rfl
  · simp only [sub_neg]

/-- Witness for the amended C5: a defined observation strictly below the
baseline gets direction 1. -/
theorem direction_tristate_rule_witness :
    (nbr_eucdistance (some 5) [some 3]).2.getD 0 none = some 1 := by
  have h := direction_tristate_rule (some 5) [some 3] 0 (by decide)
  rw [h]
  norm_num

/-! ## Outlier-policy dispatch of `severitymapping` (BurnCube.py, lines 419-451) -/

/-- Default of `severitymapping(self, period, n_procs=4, method='NBR', growing=True)`. -/
def severitymappingDefaultMethod : String := "NBR"

/-- The per-(pixel, time) outlier flag of the `severitymapping` candidate
pre-filter: method `'NBR'` flags `cosdist > CDistoutlier and NBR < 0`,
method `'NBRdist'` flags
`cosdist > CDistoutlier and NBRDist > NBRoutlier and ChangeDir == 1`, and
any other method string raises `ValueError` (modelled as `none`). -/
def prefilterFlag (method : String) (cosd θc nbrv nbrd θn chg : Option ℚ) :
    Option Bool :=
  if method = "NBR" then
    some (oGTo cosd θc && oLT nbrv 0)
  else if method = "NBRdist" then
    some (oGTo cosd θc && oGTo nbrd θn && (chg == some 1))
  else none

/-- Policy C in the spec's words ("cosine distance exceeds threshold AND
NBR distance exceeds its threshold AND the direction sign indicates a
decrease"), stated for comparison with the code's default dispatch. -/
def policyC_spec (cosd θc nbrd θn : ℚ) (decrease : Bool) : Bool :=
  decide (θc < cosd) && decide (θn < nbrd) && decrease

/-- Counterexample to C3: with cosine distance 2 above its threshold 1,
NBR −1 < 0, but NBR distance 0 below its threshold 1 and direction 0 (no
decrease), the default method of `severitymapping` flags the time step as
an outlier while the spec's Policy C does not: the default policy is not
Policy C. -/
theorem severitymapping_default_not_policyC :
    prefilterFlag severitymappingDefaultMethod (some 2) (some 1) (some (-1))
      (some 0) (some 1) (some 0) = some true ∧
    policyC_spec 2 1 0 1 false = false := by
  constructor <;> decide

/-- C3 (amended): invoked without an explicit method, `severitymapping`
uses `method='NBR'`, i.e. Policy B: a time step is flagged iff the cosine
distance exceeds its threshold AND the raw NBR is negative; the NBR
distance, its threshold and the direction sign are ignored. -/
theorem severitymapping_default_is_policyB (c t v : ℚ) (nbrd θn chg : Option ℚ) :
    prefilterFlag severitymappingDefaultMethod (some c) (some t) (some v) nbrd θn chg =
      some (decide (t < c) && decide (v < 0)) := by
  rfl

end BurnMapping

namespace BurnMapping

/-! ## Valid-observation selection and NBR (BurnCube.py, lines 22-52, 279-283) -/

/-- `ind = np.where(X[1, :, i] > 0)[0]` — the time steps retained by
`dist_geomedian` and `dist_distance` for one pixel.  `Xb` is the pixel's
band-major stack (one `int16` time series per band, so no NaN); only band
index 1 (green) is tested. -/
def validIdx (Xb : List (List ℚ)) : List ℕ :=
  (List.range (Xb.getD 1 []).length).filter
    (fun t => decide (0 < (Xb.getD 1 []).getD t 0))

/-- The NBR value at one time step (BurnCube.py lines 279-283):
`nir[nir <= 0] = np.nan; swir2[swir2 <= 0] = np.nan;
nbr = (nir - swir2)/(nir + swir2)`. -/
def nbrVal (nir swir2 : ℚ) : Option ℚ :=
  if nir ≤ 0 ∨ swir2 ≤ 0 then none else some ((nir - swir2) / (nir + swir2))

/-- Counterexample to C4: in a two-step pixel whose second step has
positive green (band 1) but non-positive nir (band 3), the second step is
NOT excluded from the geometric-median / cosine-distance reductions — the
retained index set is `[0, 1]` although band 3 is non-positive at step 1. -/
theorem valid_step_green_only_counterexample :
    validIdx [[100, 100], [80, 80], [60, 60], [300, -5], [200, 200], [50, 50]]
        = [0, 1] ∧
    (([[100, 100], [80, 80], [60, 60], [300, -5], [200, 200], [50, 50]] :
        List (List ℚ)).getD 3 []).getD 1 0 ≤ 0 := by
  constructor <;> decide

/-- C4 (amended): a time step is treated as "no observation" for the
geometric-median and distance reductions exactly when its band-1 (green)
reflectance is non-positive (other bands are not consulted); separately,
the NBR grid value of a step is undefined exactly when nir or swir2 is
non-positive there. -/
theorem valid_step_selection_rule (Xb : List (List ℚ)) (t : ℕ) :
    (t ∈ validIdx Xb ↔ t < (Xb.getD 1 []).length ∧ 0 < (Xb.getD 1 []).getD t 0) ∧
    (∀ nir swir2 : ℚ, nbrVal nir swir2 = none ↔ nir ≤ 0 ∨ swir2 ≤ 0) := by
  constructor
  · unfold validIdx
    rw [List.mem_filter, List.mem_range]
    simp
  · intro nir swir2
    unfold nbrVal
    by_cases h : nir ≤ 0 ∨ swir2 ≤ 0
    · simp [h]
    · simp [h]

end BurnMapping

namespace BurnMapping

/-! ## `geometric_median` (burnmappingtoolbox.py, lines 18-49) and
`dist_geomedian` (BurnCube.py, lines 22-32)

The pixel stack is presented to `geometric_median` as a list of per-date
band vectors (the transpose of the source's `p x N` matrix, made explicit
here because the iteration walks dates).  The per-pixel input is `int16`
reflectance, so the date vectors contain no NaN.  `np.sqrt` has no exact
rational counterpart, so the Euclidean norm is abstracted as a function
parameter `sqrtFn` applied to the exact sum of squares; the places where
the float code produces NaN/zero do not depend on the value of the square
root, only on whether the radicand is zero, which is tested exactly. -/

def vsub (a b : List ℚ) : List ℚ := List.zipWith (· - ·) a b

def sumSq (v : List ℚ) : ℚ := (v.map (fun q => q * q)).sum

/-- One update `y1` of the Weiszfeld loop.  When some observation
coincides with the current estimate its Euclidean norm is 0; the float
code then divides by zero and `y1` picks up NaN in every band
(`inf/inf`, `0/0` or `(-inf)/inf`), which the `len(y1[np.isnan(y1)])>0`
branch detects — modelled as `none`.  Otherwise
`y1 = sum(X/EucNorm) / sum(1/EucNorm)` band-wise. -/
def gmStep (sqrtFn : ℚ → ℚ) (X : List (List ℚ)) (y0 : List ℚ) : Option (List ℚ) :=
  if X.any (fun xt => decide (sumSq (vsub xt y0) = 0)) then none
  else
    let w := X.map (fun xt => 1 / sqrtFn (sumSq (vsub xt y0)))
    some ((List.range y0.length).map (fun b =>
      ((X.zip w).map (fun cw => cw.1.getD b 0 * cw.2)).sum / w.sum))

/-- The `while` loop of `geometric_median`: fuel is `MaxInter - l`, and
`epsSq` carries `sum(eps**2)` (the source's `sqrt(sum(eps**2)) > tol`
test is rendered as `sum(eps**2) > tol^2`, equivalent for the
non-negative tolerances the callers pass).  A NaN update (`gmStep =
none`) sets `eps = 0`, so the loop exits returning the previous
estimate. -/
def gmLoop (sqrtFn : ℚ → ℚ) (X : List (List ℚ)) (tol : ℚ) :
    ℕ → ℚ → List ℚ → List ℚ
  | 0, _, y0 => y0
  | fuel + 1, epsSq, y0 =>
    if epsSq > tol ^ 2 then
      match gmStep sqrtFn X y0 with
      | none => y0
      | some y1 => gmLoop sqrtFn X tol fuel (sumSq (vsub y1 y0)) y1
    else y0

/-- `y0 = np.nanmean(X, axis=1)` for a date-major stack of NaN-free
columns. -/
def nanmeanVec (X : List (List ℚ)) : List ℚ :=
  match X with
  | [] => []
  | c :: _ => (List.range c.length).map
      (fun b => ((X.map (fun col => col.getD b 0)).sum) / (X.length : ℚ))

/-- `geometric_median(X, tol, MaxInter)`.  For an empty stack the initial
`nanmean` is all-NaN and is returned as-is (`none`); otherwise the initial
mean is defined (`int16` input has no NaN) and the loop starts with the
scalar `eps = 10**2`, i.e. `sum(eps**2) = 10000`. -/
def geometric_median (sqrtFn : ℚ → ℚ) (X : List (List ℚ)) (tol : ℚ)
    (MaxInter : ℕ) : Option (List ℚ) :=
  match X with
  | [] => none
  | c :: rest => some (gmLoop sqrtFn (c :: rest) tol MaxInter (100 * 100)
      (nanmeanVec (c :: rest)))

/-- The per-pixel matrix `X[:, ind, i]` handed to `geometric_median`,
transposed to date-major columns. -/
def gmColumns (Xb : List (List ℚ)) : List (List ℚ) :=
  (validIdx Xb).map (fun t => Xb.map (fun band => band.getD t 0))

/-- `dist_geomedian` for one pixel: if no time step has positive green the
output row keeps its NaN fill, otherwise `geometric_median` runs on the
retained columns. -/
def dist_geomedian_pixel (sqrtFn : ℚ → ℚ) (Xb : List (List ℚ)) (tol : ℚ)
    (maxIter : ℕ) : Option (List ℚ) :=
  if validIdx Xb = [] then none
  else geometric_median sqrtFn (gmColumns Xb) tol maxIter

theorem gmStep_length (sqrtFn : ℚ → ℚ) (X : List (List ℚ)) (y0 y1 : List ℚ)
    (h : gmStep sqrtFn X y0 = some y1) : y1.length = y0.length := by
  unfold gmStep at h
  by_cases hz : X.any (fun xt => decide (sumSq (vsub xt y0) = 0))
  · rw [if_pos hz] at h; exact absurd h (by simp)
  · rw [if_neg hz] at h
    have := Option.some.inj h
    rw [← this, List.length_map, List.length_range]

theorem gmLoop_length (sqrtFn : ℚ → ℚ) (X : List (List ℚ)) (tol : ℚ) :
    ∀ (fuel : ℕ) (epsSq : ℚ) (y0 : List ℚ),
      (gmLoop sqrtFn X tol fuel epsSq y0).length = y0.length := by
  intro fuel
  induction fuel with
  | zero => intro epsSq y0; rfl
  | succ n ih =>
    intro epsSq y0
    unfold gmLoop
    by_cases hc : epsSq > tol ^ 2
    · rw [if_pos hc]
      rcases hstep : gmStep sqrtFn X y0 with _ | y1
      · rfl
      · rw [ih (sumSq (vsub y1 y0)) y1]
        exact gmStep_length sqrtFn X y0 y1 hstep
    · rw [if_neg hc]

/-- C7: the per-pixel geometric-median estimator is total.  For a pixel
with no valid observation the output row keeps its NaN fill; for a pixel
with at least one valid observation it returns a defined (NaN-free)
band vector with one entry per band.  (The iteration is bounded by
`MaxInter` and every NaN produced mid-iteration freezes the previous
defined estimate, so no error and no NaN can escape.) -/
theorem geomedian_total_finite (sqrtFn : ℚ → ℚ) (Xb : List (List ℚ))
    (tol : ℚ) (maxIter : ℕ) :
    (validIdx Xb = [] → dist_geomedian_pixel sqrtFn Xb tol maxIter = none) ∧
    (validIdx Xb ≠ [] → ∃ v : List ℚ,
      dist_geomedian_pixel sqrtFn Xb tol maxIter = some v ∧
        v.length = Xb.length) := by
  constructor
  · intro h
    unfold dist_geomedian_pixel
    rw [if_pos h]
  · intro h
    unfold dist_geomedian_pixel
    rw [if_neg h]
    rcases hv : validIdx Xb with _ | ⟨t, ts⟩
    · exact absurd hv h
    · have hcols : gmColumns Xb =
          (Xb.map (fun band => band.getD t 0)) ::
            ts.map (fun t' => Xb.map (fun band => band.getD t' 0)) := by
        unfold gmColumns
        rw [hv, List.map_cons]
      refine ⟨gmLoop sqrtFn (gmColumns Xb) tol maxIter (100 * 100)
        (nanmeanVec (gmColumns Xb)), ?_, ?_⟩
      · rw [hcols]
        rfl
      · rw [gmLoop_length]
        rw [hcols]
        unfold nanmeanVec
        simp

/-- Witness for C7: a six-band pixel with a single valid observation gets
that observation's mean-initialised estimate back (the first update has
zero distance, the float code's NaN branch freezes the mean). -/
theorem geomedian_total_finite_witness :
    validIdx [[1], [1], [1], [1], [1], [1]] ≠ [] ∧
    ∃ v : List ℚ,
      dist_geomedian_pixel id [[1], [1], [1], [1], [1], [1]] 1 2 = some v ∧
        v.length = 6 := by
  refine ⟨by decide, ?_⟩
  exact (geomedian_total_finite id [[1], [1], [1], [1], [1], [1]] 1 2).2 (by decide)

end BurnMapping

namespace BurnMapping

/-! ## `outliers` (BurnCube.py, lines 336-348) -/

/-- Insertion step of an ascending sort. -/
def insertSorted (q : ℚ) : List ℚ → List ℚ
  | [] => [q]
  | x :: xs => if q ≤ x then q :: x :: xs else x :: insertSorted q xs

/-- Ascending insertion sort. -/
def sortQ (l : List ℚ) : List ℚ := l.foldr insertSorted []

/-- Modelled from the spec: `stats.nanpercentile` (imported by BurnCube.py
from the repository's `stats` module, which is not under `src/`) — the
"25th/75th percentiles of the ... distance distributions across all valid
... samples ..., ignoring invalid entries", with numpy's default linear
interpolation on the ascending-sorted valid samples:
`h = p*(n-1)/100`, result `s[⌊h⌋] + (h-⌊h⌋)*(s[⌊h⌋+1 or last] - s[⌊h⌋])`;
an all-invalid input yields an undefined (NaN) percentile. -/
def percentileLin (p : ℚ) (xs : List ℚ) : Option ℚ :=
  if xs = [] then none
  else
    let s := sortQ xs
    let n := s.length
    let h : ℚ := p * ((n : ℚ) - 1) / 100
    let lo := (⌊h⌋).toNat
    let hi := min (lo + 1) (n - 1)
    some (s.getD lo 0 + (h - (⌊h⌋ : ℚ)) * (s.getD hi 0 - s.getD lo 0))

/-- `nanpercentile(data, p)` on a flattened distance grid: NaN entries are
ignored, valid ones fed to the percentile. -/
def nanpercentile2 (data : List (Option ℚ)) (p : ℚ) : Option ℚ :=
  percentileLin p (data.filterMap id)

/-- The Tukey fence of `BurnCube.outliers`:
`ps = nanpercentile(data, [25,75]); out = ps[1] + 1.5*(ps[1]-ps[0])`. -/
def outlierThreshold (data : List (Option ℚ)) : Option ℚ :=
  match nanpercentile2 data 25, nanpercentile2 data 75 with
  | some q1, some q3 => some (q3 + 3/2 * (q3 - q1))
  | _, _ => none

/-- `BurnCube.outliers()`: the pair `(NBRoutlier, CDistoutlier)` computed
from the NBR-distance and cosine-distance grids. -/
def outliers_fn (nbrDistData cosDistData : List (Option ℚ)) :
    Option ℚ × Option ℚ :=
  (outlierThreshold nbrDistData, outlierThreshold cosDistData)

theorem mem_insertSorted (a q : ℚ) : ∀ l : List ℚ,
    (a ∈ insertSorted q l ↔ a = q ∨ a ∈ l) := by
  intro l
  induction l with
  | nil => simp [insertSorted]
  | cons x xs ih =>
    unfold insertSorted
    by_cases h : q ≤ x
    · simp [h]
    · rw [if_neg h]
      simp only [List.mem_cons, ih]
      tauto

theorem mem_sortQ (a : ℚ) (l : List ℚ) : a ∈ sortQ l ↔ a ∈ l := by
  induction l with
  | nil => simp [sortQ]
  | cons x xs ih =>
    unfold sortQ at ih ⊢
    rw [List.foldr_cons, mem_insertSorted, ih, List.mem_cons]

theorem length_insertSorted (q : ℚ) : ∀ l : List ℚ,
    (insertSorted q l).length = l.length + 1 := by
  intro l
  induction l with
  | nil => rfl
  | cons x xs ih =>
    unfold insertSorted
    by_cases h : q ≤ x
    · simp [h]
    · rw [if_neg h]
      simp only [List.length_cons, ih]

theorem length_sortQ (l : List ℚ) : (sortQ l).length = l.length := by
  induction l with
  | nil => rfl
  | cons x xs ih =>
    unfold sortQ at ih ⊢
    rw [List.foldr_cons, length_insertSorted, ih, List.length_cons]

theorem getD_mem_of_lt (l : List ℚ) (i : ℕ) (h : i < l.length) :
    l.getD i 0 ∈ l := by
  rw [List.getD_eq_getElem l 0 h]
  exact List.getElem_mem h

theorem percentileLin_isSome (p : ℚ) (xs : List ℚ) (h : xs ≠ []) :
    ∃ q, percentileLin p xs = some q := by
  unfold percentileLin
  rw [if_neg h]
  exact ⟨_, rfl⟩

/-- A percentile of a constant sample list is that constant. -/
theorem percentileLin_const (p : ℚ) (xs : List ℚ) (c : ℚ)
    (h0 : 0 ≤ p) (h100 : p ≤ 100) (hne : xs ≠ [])
    (hc : ∀ v ∈ xs, v = c) : percentileLin p xs = some c := by
  unfold percentileLin
  rw [if_neg hne]
  dsimp only
  have hn : 0 < xs.length := List.length_pos.mpr hne
  have hslen : (sortQ xs).length = xs.length := length_sortQ xs
  have hmem : ∀ v ∈ sortQ xs, v = c := fun v hv => hc v ((mem_sortQ v xs).mp hv)
  have hn1 : (1 : ℚ) ≤ (xs.length : ℚ) := by exact_mod_cast hn
  have hh0 : 0 ≤ p * (((sortQ xs).length : ℚ) - 1) / 100 := by
    rw [hslen]
    have : (0:ℚ) ≤ (xs.length : ℚ) - 1 := by linarith
    positivity
  have hhle : p * (((sortQ xs).length : ℚ) - 1) / 100 ≤ ((sortQ xs).length : ℚ) - 1 := by
    rw [hslen]
    have hbase : (0:ℚ) ≤ (xs.length : ℚ) - 1 := by linarith
    calc p * ((xs.length : ℚ) - 1) / 100 ≤ 100 * ((xs.length : ℚ) - 1) / 100 := by
          apply div_le_div_of_nonneg_right ?_ (by norm_num)
          exact mul_le_mul_of_nonneg_right h100 hbase
      _ = (xs.length : ℚ) - 1 := by ring
  have hfl0 : 0 ≤ ⌊p * (((sortQ xs).length : ℚ) - 1) / 100⌋ := Int.floor_nonneg.mpr hh0
  have hflle : ⌊p * (((sortQ xs).length : ℚ) - 1) / 100⌋ ≤ ((sortQ xs).length : ℤ) - 1 := by
    have h2 : p * (((sortQ xs).length : ℚ) - 1) / 100 ≤
        (((((sortQ xs).length : ℤ) - 1) : ℤ) : ℚ) := by
      push_cast
      exact hhle
    calc ⌊p * (((sortQ xs).length : ℚ) - 1) / 100⌋
        ≤ ⌊(((((sortQ xs).length : ℤ) - 1) : ℤ) : ℚ)⌋ := Int.floor_le_floor h2
      _ = ((sortQ xs).length : ℤ) - 1 := Int.floor_intCast _
  have hlo : (⌊p * (((sortQ xs).length : ℚ) - 1) / 100⌋).toNat < (sortQ xs).length := by
    have h1 : (0:ℤ) < ((sortQ xs).length : ℤ) := by
      exact_mod_cast hslen ▸ hn
    omega
  have hhi : min ((⌊p * (((sortQ xs).length : ℚ) - 1) / 100⌋).toNat + 1)
      ((sortQ xs).length - 1) < (sortQ xs).length := by
    have : 0 < (sortQ xs).length := hslen ▸ hn
    omega
  have hgetlo : (sortQ xs).getD (⌊p * (((sortQ xs).length : ℚ) - 1) / 100⌋).toNat 0 = c :=
    hmem _ (getD_mem_of_lt _ _ hlo)
  have hgethi : (sortQ xs).getD (min ((⌊p * (((sortQ xs).length : ℚ) - 1) / 100⌋).toNat + 1)
      ((sortQ xs).length - 1)) 0 = c :=
    hmem _ (getD_mem_of_lt _ _ hhi)
  rw [hgetlo, hgethi]
  norm_num

theorem outlierThreshold_formula (data : List (Option ℚ))
    (h : data.filterMap id ≠ []) :
    ∃ q1 q3, nanpercentile2 data 25 = some q1 ∧ nanpercentile2 data 75 = some q3 ∧
      outlierThreshold data = some (q3 + 3/2 * (q3 - q1)) := by
  obtain ⟨q1, h1⟩ := percentileLin_isSome 25 _ h
  obtain ⟨q3, h3⟩ := percentileLin_isSome 75 _ h
  have h1' : nanpercentile2 data 25 = some q1 := h1
  have h3' : nanpercentile2 data 75 = some q3 := h3
  refine ⟨q1, q3, h1', h3', ?_⟩
  unfold outlierThreshold
  rw [h1', h3']

theorem outlierThreshold_const (data : List (Option ℚ)) (c : ℚ)
    (hne : data.filterMap id ≠ []) (hc : ∀ v ∈ data.filterMap id, v = c) :
    outlierThreshold data = some c := by
  unfold outlierThreshold nanpercentile2
  rw [percentileLin_const 25 _ c (by norm_num) (by norm_num) hne hc,
    percentileLin_const 75 _ c (by norm_num) (by norm_num) hne hc]
  norm_num

/-- C6: for each distance type, the threshold computed by `outliers()` is
`Q3 + 1.5*(Q3 - Q1)` over the valid distance samples; on a distribution of
zero variance (every valid sample equal to a constant) the threshold is
exactly that constant. -/
theorem outliers_tukey_fence (nbrData cosData : List (Option ℚ))
    (hn : nbrData.filterMap id ≠ []) (hc : cosData.filterMap id ≠ []) :
    (∃ q1 q3, nanpercentile2 nbrData 25 = some q1 ∧
        nanpercentile2 nbrData 75 = some q3 ∧
        (outliers_fn nbrData cosData).1 = some (q3 + 3/2 * (q3 - q1))) ∧
    (∃ q1 q3, nanpercentile2 cosData 25 = some q1 ∧
        nanpercentile2 cosData 75 = some q3 ∧
        (outliers_fn nbrData cosData).2 = some (q3 + 3/2 * (q3 - q1))) ∧
    (∀ cst : ℚ, (∀ v ∈ nbrData.filterMap id, v = cst) →
        (outliers_fn nbrData cosData).1 = some cst) ∧
    (∀ cst : ℚ, (∀ v ∈ cosData.filterMap id, v = cst) →
        (outliers_fn nbrData cosData).2 = some cst) := by
  refine ⟨outlierThreshold_formula nbrData hn, outlierThreshold_formula cosData hc,
    fun cst hcst => outlierThreshold_const nbrData cst hn hcst,
    fun cst hcst => outlierThreshold_const cosData cst hc hcst⟩

/-- Witness for C6: constant-distance grids (with a NaN gap) get their
constant back as threshold. -/
theorem outliers_tukey_fence_witness :
    (outliers_fn [some 2, none, some 2] [some 3, some 3]).1 = some 2 ∧
    (outliers_fn [some 2, none, some 2] [some 3, some 3]).2 = some 3 := by
  have h := outliers_tukey_fence [some 2, none, some 2] [some 3, some 3]
    (by decide) (by decide)
  exact ⟨h.2.2.1 2 (by decide), h.2.2.2 3 (by decide)⟩

end BurnMapping

namespace BurnMapping

/-! ## Worker chunking (BurnCube.py, lines 249-252 and 317-321) -/

/-- The chunk list of the parallel stages:
`chunk = n // n_procs;
[(i, min(n, i + chunk)) for i in range(0, n, chunk)]`.
When `chunk == 0` (fewer pixels than workers, or `n_procs == 0`), Python's
`range` raises `ValueError: range() arg 3 must not be zero` before any
range is produced — modelled as `none`. -/
def chunkRanges (n nprocs : ℕ) : Option (List (ℕ × ℕ)) :=
  let chunk := n / nprocs
  if chunk = 0 then none
  else some ((List.range ((n + chunk - 1) / chunk)).map
    (fun j => (j * chunk, min n (j * chunk + chunk))))

/-- Counterexample to C9: with 1 pixel and 2 workers, `chunk = 0` and the
chunking raises instead of partitioning `[0, 1)`: no ranges are produced
at all. -/
theorem chunking_zero_chunk_counterexample : chunkRanges 1 2 = none := rfl

/-- C9 (amended): whenever `1 ≤ n_workers ≤ N` (so `chunk ≥ 1`), the
chunk list partitions the flattened index space `[0, N)` exactly: every
index `k < N` lies in exactly one range, and every range is a nonempty
interval contained in `[0, N)`.  With more workers than pixels the
chunking raises instead (`chunk = 0`). -/
theorem chunking_partition (n nprocs : ℕ) (h1 : 0 < nprocs) (h2 : nprocs ≤ n) :
    ∃ rs, chunkRanges n nprocs = some rs ∧
      (∀ k, k < n →
        rs.countP (fun r => decide (r.1 ≤ k) && decide (k < r.2)) = 1) ∧
      (∀ r ∈ rs, r.1 < r.2 ∧ r.2 ≤ n) := by
  have hchunk : 0 < n / nprocs := Nat.div_pos h2 h1
  set chunk := n / nprocs with hcdef
  have hn1 : 1 ≤ n := le_trans h1 h2
  have hm : (n + chunk - 1) / chunk = (n - 1) / chunk + 1 := by
    have he : n + chunk - 1 = (n - 1) + chunk := by omega
    rw [he, Nat.add_div_right _ hchunk]
  refine ⟨(List.range ((n + chunk - 1) / chunk)).map
    (fun j => (j * chunk, min n (j * chunk + chunk))), ?_, ?_, ?_⟩
  · unfold chunkRanges
    rw [← hcdef, if_neg (Nat.pos_iff_ne_zero.mp hchunk)]
  · intro k hk
    rw [List.countP_map]
    have hcong : ∀ j ∈ List.range ((n + chunk - 1) / chunk),
        (((fun r : ℕ × ℕ => decide (r.1 ≤ k) && decide (k < r.2)) ∘
          (fun j => (j * chunk, min n (j * chunk + chunk)))) j = true
          ↔ (j == k / chunk) = true) := by
      intro j hj
      simp only [Function.comp_apply, Bool.and_eq_true, decide_eq_true_eq,
        beq_iff_eq, lt_min_iff]
      constructor
      · rintro ⟨hle, _, hlt⟩
        have hjle : j ≤ k / chunk := (Nat.le_div_iff_mul_le hchunk).mpr hle
        have hjge : k / chunk < j + 1 := by
          apply (Nat.div_lt_iff_lt_mul hchunk).mpr
          calc k < j * chunk + chunk := hlt
            _ = (j + 1) * chunk := by ring
        omega
      · rintro rfl
        refine ⟨Nat.div_mul_le_self k chunk, hk, ?_⟩
        have hdm := Nat.div_add_mod k chunk
        have hmod := Nat.mod_lt k hchunk
        calc k = chunk * (k / chunk) + k % chunk := (Nat.div_add_mod k chunk).symm
          _ < chunk * (k / chunk) + chunk := by omega
          _ = k / chunk * chunk + chunk := by ring
    rw [List.countP_congr hcong]
    have hmemc : k / chunk ∈ List.range ((n + chunk - 1) / chunk) := by
      rw [List.mem_range, hm]
      have : k / chunk ≤ (n - 1) / chunk := Nat.div_le_div_right (by omega)
      omega
    exact List.count_eq_one_of_mem (List.nodup_range _) hmemc
  · intro r hr
    obtain ⟨j, hj, rfl⟩ := List.mem_map.mp hr
    rw [List.mem_range, hm] at hj
    have hjle : j ≤ (n - 1) / chunk := by omega
    have hjn : j * chunk < n := by
      calc j * chunk ≤ (n - 1) / chunk * chunk :=
            Nat.mul_le_mul_right chunk hjle
        _ ≤ n - 1 := Nat.div_mul_le_self _ _
        _ < n := by omega
    exact ⟨lt_min hjn (by omega), min_le_left _ _⟩

/-- Witness for the amended C9: 5 pixels over 2 workers. -/
theorem chunking_partition_witness :
    ∃ rs, chunkRanges 5 2 = some rs ∧
      (∀ k, k < 5 →
        rs.countP (fun r => decide (r.1 ≤ k) && decide (k < r.2)) = 1) ∧
      (∀ r ∈ rs, r.1 < r.2 ∧ r.2 ≤ 5) :=
  chunking_partition 5 2 (by decide) (by decide)

end BurnMapping

namespace BurnMapping

/-! ## `region_growing` (BurnCube.py, lines 350-416)

Grids are flattened to pixel-indexed lists; the connected-component
labelling `skimage.measure.label` is an external library call and is
abstracted as a function parameter `label` from the potential mask to a
label grid (background 0).  Timestamps are rational days; the source's
`str(d)[:10]` truncates a `datetime64` to its calendar date, i.e. the
floor of the day value. -/

deriving instance DecidableEq for Except

/-- Inputs of `region_growing`: the severity result
(`StartDate`/`Severe`), the distance grids `[time][pixel]`, the
thresholds, and the observation times. -/
structure RGInput where
  startDate : List (Option ℚ)
  severe : List ℚ
  times : List ℚ
  changeDir : List (List (Option ℚ))
  nbrDist : List (List (Option ℚ))
  cosDist : List (List (Option ℚ))
  nbrOutlier : List (Option ℚ)
  cdistOutlier : List (Option ℚ)

/-- `str(d)[:10]` then `np.datetime64(...)`: the start of `d`'s calendar
day. -/
def floorDay (d : ℚ) : ℚ := (⌊d⌋ : ℚ)

/-- `np.where(self.dists.time > np.datetime64(str(d)[:10]))[0][0]`: the
first observation index strictly after the start of `d`'s day; `none`
models the `IndexError` on an empty selection. -/
def firstIdxAfter (times : List ℚ) (d : ℚ) : Option ℕ :=
  ((List.range times.length).filter
    (fun t => decide (floorDay d < times.getD t 0))).head?

/-- `np.unique` of the valid start dates: sorted distinct values. -/
def uniqueSorted (l : List ℚ) : List ℚ := sortQ l.dedup

/-- `ChangeDates = np.unique(StartDate[~isnan])` of a severity result. -/
def changeDatesOf (startDate : List (Option ℚ)) : List ℚ :=
  uniqueSorted (startDate.filterMap id)

/-- `np.where(sumpix == np.max(sumpix))[0][0]`: first index attaining the
maximum; `np.max` of an empty array raises
`ValueError: zero-size array to reduction operation maximum`, modelled as
`none`. -/
def maxIdx? (l : List ℕ) : Option ℕ :=
  match l with
  | [] => none
  | _ => ((List.range l.length).filter
      (fun i => decide (l.getD i 0 = l.foldl max 0))).head?

/-- `SeedMap = (severity.Severe > 0).astype(int)`. -/
def seedMapOf (severe : List ℚ) : List ℕ :=
  severe.map (fun v => if 0 < v then 1 else 0)

/-- `Potential = ((NBR_score > 2/3) & (cos_score > 2/3)).astype(int)` at
time index `ti`, with
`NBR_score = (ChangeDir*NBRDist)[ti]/NBRoutlier` and
`cos_score = (ChangeDir*cosdist)[ti]/CDistoutlier` per pixel. -/
def potentialMask (inp : RGInput) (ti : ℕ) : List Bool :=
  (List.range inp.severe.length).map (fun p =>
    oGT (odiv (omul ((inp.changeDir.getD ti []).getD p none)
                    ((inp.nbrDist.getD ti []).getD p none))
              (inp.nbrOutlier.getD p none)) (2/3)
    && oGT (odiv (omul ((inp.changeDir.getD ti []).getD p none)
                       ((inp.cosDist.getD ti []).getD p none))
                 (inp.cdistOutlier.getD p none)) (2/3))

/-- `np.mean(np.extract(all_labels == l, SeedMap))`. -/
def meanSeed (seed : List ℕ) (lbls : List ℕ) (l : ℕ) : ℚ :=
  let idx := (List.range seed.length).filter (fun q => decide (lbls.getD q 0 = l))
  ((idx.map (fun q => ((seed.getD q 0 : ℕ) : ℚ))).sum) / (idx.length : ℚ)

/-- The labelled-region seed-fraction map:
`NewPotential = 0.*all_labels; for ri in range(1, np.max(np.unique(all_labels))):
NewPotential[all_labels == ri] = np.mean(...)`.
Note the source's `range(1, max)` excludes the maximal label itself, which
is reproduced here (`l < maxL`). -/
def newPotentialOf (label : List Bool → List ℕ) (seed : List ℕ)
    (pot : List Bool) : List ℚ :=
  let lbls := label pot
  let maxL := lbls.foldl max 0
  (List.range seed.length).map (fun p =>
    let l := lbls.getD p 0
    if 1 ≤ l ∧ l < maxL then meanSeed seed lbls l else 0)

/-- One iteration of the `for d in ChangeDates` sweep; the state is
`(AnnualMap, Startdates, tmpMap)`. -/
def rgStep (label : List Bool → List ℕ) (inp : RGInput) (dmode : ℚ)
    (seed : List ℕ) (st : List ℚ × List ℚ × List ℚ) (d : ℚ) :
    Except String (List ℚ × List ℚ × List ℚ) :=
  match firstIdxAfter inp.times d with
  | none => Except.error "index 0 is out of bounds"
  | some ti =>
    let npot := newPotentialOf label seed (potentialMask inp ti)
    let annual := List.zipWith (· + ·) st.1
      (npot.map (fun v => if (1/4 : ℚ) < v then (1 : ℚ) else 0))
    let tmp := annual.map (fun v => if (0 : ℚ) < v then (1 : ℚ) else 0)
    let startd :=
      if d < dmode then
        (List.range st.2.1.length).map (fun p =>
          if tmp.getD p 0 - st.2.2.getD p 0 < 0 then d else st.2.1.getD p 0)
      else
        (List.range st.2.1.length).map (fun p =>
          if 0 < tmp.getD p 0 - st.2.2.getD p 0 then d else st.2.1.getD p 0)
    Except.ok (annual, startd, tmp)

/-- Error-propagating left fold (the `for d in ChangeDates` loop with the
numpy error escaping), written out explicitly. -/
def foldlE {σ α : Type} (f : σ → α → Except String σ) : σ → List α → Except String σ
  | s, [] => Except.ok s
  | s, a :: as =>
    match f s a with
    | Except.error e => Except.error e
    | Except.ok s2 => foldlE f s2 as

/-- `BurnCube.region_growing(severity)`: returns
`(BurnExtent, Startdates)` or the propagated numpy error. -/
def region_growing (label : List Bool → List ℕ) (inp : RGInput) :
    Except String (List ℕ × List ℚ) :=
  let sd := inp.startDate.filterMap id
  let changeDates := changeDatesOf inp.startDate
  let sumpix := changeDates.map (fun dd => sd.countP (fun v => decide (v = dd)))
  match maxIdx? sumpix with
  | none => Except.error "zero-size array to reduction operation maximum"
  | some ii =>
    let dmode := changeDates.getD ii 0
    match firstIdxAfter inp.times dmode with
    | none => Except.error "index 0 is out of bounds"
    | some ti =>
      let seed := seedMapOf inp.severe
      let npot := newPotentialOf label seed (potentialMask inp ti)
      let startdates0 := npot.map (fun v => if 0 < v then dmode else 0)
      let tmpMap0 := npot.map (fun v => if (0 : ℚ) < v then (1 : ℚ) else 0)
      let annual0 := List.replicate inp.severe.length (0 : ℚ)
      (foldlE (rgStep label inp dmode seed)
          (annual0, startdates0, tmpMap0) changeDates).map
        (fun fin => (fin.1.map (fun v => if 0 < v then 1 else 0), fin.2.1))

end BurnMapping

namespace BurnMapping

theorem firstIdxAfter_none (times : List ℚ) (d : ℚ)
    (h : ∀ t ∈ times, t ≤ floorDay d) : firstIdxAfter times d = none := by
  unfold firstIdxAfter
  have hfil : (List.range times.length).filter
      (fun t => decide (floorDay d < times.getD t 0)) = [] := by
    apply List.filter_eq_nil_iff.mpr
    intro a ha
    simp only [decide_eq_true_eq]
    exact not_lt.mpr (h _ (getD_mem_of_lt times a (List.mem_range.mp ha)))
  rw [hfil]
  rfl

theorem foldlE_error_of_mem {σ α : Type} (f : σ → α → Except String σ)
    (x : α) : ∀ (l : List α), x ∈ l →
    (∀ s, ∃ e, f s x = Except.error e) →
    ∀ s, ∃ e, foldlE f s l = Except.error e := by
  intro l
  induction l with
  | nil => intro hx; exact absurd hx (List.not_mem_nil x)
  | cons y ys ih =>
    intro hx hf s
    unfold foldlE
    rcases hfy : f s y with e | s2
    · exact ⟨e, rfl⟩
    · rcases List.mem_cons.mp hx with rfl | hx2
      · obtain ⟨e, he⟩ := hf s
        rw [hfy] at he
        exact absurd he (by simp)
      · exact ih hx2 hf s2

theorem exists_error_map {σ β : Type} (g : σ → β) (r : Except String σ)
    (h : ∃ e, r = Except.error e) : ∃ e, r.map g = Except.error e := by
  rcases h with ⟨e, rfl⟩
  exact ⟨e, rfl⟩

/-- C8 (amended): with zero candidate change dates (no pixel has a defined
start date), `region_growing` is not a no-op: `np.max` over the empty
`sumpix` raises `ValueError: zero-size array to reduction operation
maximum` instead of returning an empty extent. -/
theorem region_growing_empty_dates_raises (label : List Bool → List ℕ)
    (inp : RGInput) (h : inp.startDate.filterMap id = []) :
    region_growing label inp =
      Except.error "zero-size array to reduction operation maximum" := by
  have hcd : changeDatesOf inp.startDate = [] := by
    unfold changeDatesOf uniqueSorted
    rw [h]
    rfl
  simp only [region_growing, hcd, List.map_nil]
  rfl

/-- Witness for the amended C8: a 2-pixel severity result with no defined
start date makes `region_growing` raise. -/
theorem region_growing_empty_dates_raises_witness :
    region_growing (fun g => g.map (fun _ => 0))
      ⟨[none, none], [0, 0], [5], [[some 0, some 0]], [[none, none]],
        [[none, none]], [some 1, some 1], [some 1, some 1]⟩ =
      Except.error "zero-size array to reduction operation maximum" :=
  region_growing_empty_dates_raises _ _ rfl

/-- Counterexample to C8: on a severity result with zero candidate change
dates, `region_growing` does not return an empty burn extent — it raises
(the error value, not an `Except.ok`). -/
theorem region_growing_empty_dates_error :
    region_growing (fun g => g.map (fun _ => 0))
      ⟨[none], [0], [0], [[some 0]], [[none]], [[none]], [some 1], [some 1]⟩ =
      Except.error "zero-size array to reduction operation maximum" := by
  rfl

/-- C10 (amended): `region_growing` looks up, for each candidate change
date `d`, the first observation time strictly greater than the START OF
`d`'s CALENDAR DAY (`str(d)[:10]` truncation), not than `d` itself.  If
for some candidate date no observation lies strictly after that day
start, the lookup indexes an empty selection and `region_growing` fails
instead of returning a result. -/
theorem region_growing_missing_later_obs_error (label : List Bool → List ℕ)
    (inp : RGInput) (d : ℚ) (hd : d ∈ changeDatesOf inp.startDate)
    (hlate : ∀ t ∈ inp.times, t ≤ floorDay d) :
    ∃ e, region_growing label inp = Except.error e := by
  have hstep : ∀ (dm : ℚ) (sd : List ℕ) (s : List ℚ × List ℚ × List ℚ),
      ∃ e, rgStep label inp dm sd s d = Except.error e := by
    intro dm sd s
    unfold rgStep
    rw [firstIdxAfter_none inp.times d hlate]
    exact ⟨_, rfl⟩
  simp only [region_growing]
  rcases hmi : maxIdx? ((changeDatesOf inp.startDate).map
      (fun dd => (inp.startDate.filterMap id).countP (fun v => decide (v = dd))))
    with _ | ii
  · exact ⟨_, rfl⟩
  · dsimp only
    rcases hfi : firstIdxAfter inp.times ((changeDatesOf inp.startDate).getD ii 0)
      with _ | ti
    · exact ⟨_, rfl⟩
    · dsimp only
      apply exists_error_map
      exact foldlE_error_of_mem _ d _ hd (fun s => hstep _ _ s) _

/-- Witness for the amended C10: a single candidate date equal to the last
(integer-day) observation timestamp leaves no strictly later observation,
and `region_growing` fails. -/
theorem region_growing_missing_later_obs_error_witness :
    ∃ e, region_growing (fun g => g.map (fun _ => 0))
      ⟨[some 10], [0], [10], [[some 0]], [[none]], [[none]], [some 1], [some 1]⟩ =
      Except.error e :=
  region_growing_missing_later_obs_error _ _ 10 (by decide) (by decide)

/-- Counterexample to C10 as stated: with a single observation at day
10.5 and the candidate change date equal to that final timestamp (so NOT
strictly earlier than it), the day-truncated lookup `time > '…day 10…'`
still finds the observation itself, and `region_growing` returns a result
instead of failing. -/
theorem region_growing_day_truncation_counterexample :
    (21/2 : ℚ) ∈ changeDatesOf [some (21/2 : ℚ)] ∧
    ¬ ((21/2 : ℚ) <
        ([21/2] : List ℚ).getD (([21/2] : List ℚ).length - 1) 0) ∧
    region_growing (fun g => g.map (fun _ => 0))
      ⟨[some (21/2 : ℚ)], [0], [(21/2 : ℚ)], [[some 0]], [[none]], [[none]],
        [some 1], [some 1]⟩ = Except.ok ([0], [0]) := by
  refine ⟨by with_unfolding_all decide, by with_unfolding_all decide,
    by with_unfolding_all decide⟩

end BurnMapping
